import Mathlib

/-!
# Verification of the disson-rs core against its specification

This file gives a shallow embedding of the core subsystems of disson-rs:
the file-cache entry state machine (`src/disson/cache/file.rs`), the cache
store clean traversal, the tile renderer's tile decomposition and ordering
(`src/disson/tile_renderer.rs`), the cancelable runner
(`src/disson/disson/mod.rs`, `src/disson/error.rs`), the size-override
parser (`src/disson/cli.rs`, `src/disson/config.rs`) and the map compute
driver's input grid (`src/disson/disson/map.rs`); and proves or refutes the
specification's claims about them.
-/

namespace Disson

/-! ## Cache entry state machine (src/disson/cache/file.rs)

The entry file is modelled at the granularity the code itself uses:
a header byte region (the magic plus the serialized key bytes) followed by
a sequence of zstd frames.  Each `append` session writes one frame; a frame
that ends with the encoded `None` sentinel decodes completely (`Frame.good`),
while a frame whose decode fails part-way yields its salvaged prefix
(`Frame.corrupt`).  `read_block` records the byte offset at the start of each
frame before decoding it; here that offset is represented by the index of the
frame, so "truncate the file to the offset recorded at the start of frame i"
becomes "keep the first i frames".  Values are opaque to the entry layer, so
the model is polymorphic in the value type `V`. -/

/-- One zstd frame of the record stream: either it decodes to its values and
ends with the `None` sentinel, or decoding fails after a salvaged prefix. -/
inductive Frame (V : Type) where
  | good (vals : List V)
  | corrupt (salvaged : List V)
  deriving DecidableEq, Repr

/-- An entry file on disk: the header bytes (magic plus key bytes, as written
by `write_header`) followed by the frames of the compressed record stream. -/
structure CacheFile (V : Type) where
  headerBytes : List Nat
  frames : List (Frame V)
  deriving DecidableEq, Repr

/-- The `Entry` state machine from `src/disson/cache/file.rs`.  `unopened`
holds the key bytes to be written or verified; `opened` is a locked,
header-verified handle positioned after everything read so far; `streaming`
holds the values written to the currently open compressor frame (they reach
the file only when the frame is finished); `closed` is the dropped state. -/
inductive Entry (V : Type) where
  | unopened (keyBytes : List Nat)
  | opened
  | streaming (buf : List V)
  | closed
  deriving DecidableEq, Repr

/-- The world a cache entry acts on: the entry state and the entry's file,
`none` when the file does not exist. -/
structure EntryWorld (V : Type) where
  entry : Entry V
  file : Option (CacheFile V)
  deriving DecidableEq, Repr

/-- Decode the record stream frame by frame, as the loop in `read_impl` does
via `read_block`: good frames contribute their values and decoding continues;
the first corrupt frame contributes its salvaged prefix and stops decoding,
reporting the index (byte offset) at which the failing frame starts. -/
def readBlocks {V : Type} : List (Frame V) → Nat → List V × Option (Nat × List V)
  | [], _ => ([], none)
  | Frame.good vs :: rest, i =>
    let r := readBlocks rest (i + 1)
    (vs ++ r.1, r.2)
  | Frame.corrupt sv :: _, i => (sv, some (i, sv))

/-- `check_header`: the file's header region must equal the current magic
followed by this entry's key bytes (`open_file` fails otherwise, which also
covers a header too short for `read_exact`). -/
def checkHeader {V : Type} (magic keyBytes : List Nat) (f : CacheFile V) : Bool :=
  f.headerBytes = magic ++ keyBytes

/-- `read_impl`: from `Unopened`, lazily open the file, verify the header and,
on any open failure, warn and stay `Unopened` returning no values.  From
`Open`, decode the record stream; on a corrupt tail, truncate the file to the
start of the failing frame, reopen a compressor there, re-emit the salvaged
records of the failing frame and transition to `Streaming`.  From `Streaming`
nothing is read.  Reading a `Closed` entry is `unreachable!` (modelled as
`none`). -/
def read_impl {V : Type} (magic : List Nat) (w : EntryWorld V) :
    Option (List V × EntryWorld V) :=
  match w.entry with
  | Entry.closed => none
  | Entry.streaming buf => some ([], ⟨Entry.streaming buf, w.file⟩)
  | Entry.opened =>
    -- the handle is positioned after everything already read, so the block
    -- loop immediately hits end-of-file
    some ([], ⟨Entry.opened, w.file⟩)
  | Entry.unopened kb =>
    match w.file with
    | none => some ([], ⟨Entry.unopened kb, w.file⟩)
    | some f =>
      if checkHeader magic kb f then
        match readBlocks f.frames 0 with
        | (vals, none) => some (vals, ⟨Entry.opened, some f⟩)
        | (vals, some (i, sv)) =>
          some (vals, ⟨Entry.streaming sv, some ⟨f.headerBytes, f.frames.take i⟩⟩)
      else
        some ([], ⟨Entry.unopened kb, w.file⟩)

/-- The `CacheEntryExt::read` wrapper: `read_impl` is infallible and, with a
single cache domain, unwrapping each value succeeds, so the caller always
receives `Except.ok` of the decoded values. -/
def readResult {V : Type} (magic : List Nat) (w : EntryWorld V) :
    Option (Except String (List V) × EntryWorld V) :=
  (read_impl magic w).map fun r => (Except.ok r.1, r.2)

/-- `append_impl`: from `Unopened`, create (truncating) the file, write the
header and open a compressor; from `Open`, open a compressor at the current
position; then write one `Some(value)` record into the open frame.  Appending
to a `Closed` entry is `unreachable!` (modelled as `none`). -/
def append_impl {V : Type} (magic : List Nat) (w : EntryWorld V) (v : V) :
    Option (EntryWorld V) :=
  match w.entry with
  | Entry.closed => none
  | Entry.streaming buf => some ⟨Entry.streaming (buf ++ [v]), w.file⟩
  | Entry.opened => some ⟨Entry.streaming [v], w.file⟩
  | Entry.unopened kb =>
    some ⟨Entry.streaming [v], some ⟨magic ++ kb, []⟩⟩

/-- Append a whole sequence of values in order. -/
def appendAll {V : Type} (magic : List Nat) (w : EntryWorld V) :
    List V → Option (EntryWorld V)
  | [] => some w
  | v :: vs => (append_impl magic w v).bind fun w1 => appendAll magic w1 vs

/-- `Drop for FileCacheEntry`: if the entry is `Streaming`, the `None`
sentinel is written and the compressor is finished, completing the open frame
on disk; in every case the entry becomes `Closed`. -/
def dropEntry {V : Type} (w : EntryWorld V) : EntryWorld V :=
  match w.entry with
  | Entry.streaming buf =>
    ⟨Entry.closed, w.file.map fun f => ⟨f.headerBytes, f.frames ++ [Frame.good buf]⟩⟩
  | _ => ⟨Entry.closed, w.file⟩

/-! ### Helper lemmas for the entry state machine -/

/-- Appending a sequence of values to a `Streaming` entry extends the open
frame buffer in order and leaves the file untouched. -/
theorem appendAll_streaming {V : Type} (magic : List Nat) (vs : List V) :
    ∀ (buf : List V) (fo : Option (CacheFile V)),
      appendAll magic ⟨Entry.streaming buf, fo⟩ vs =
        some ⟨Entry.streaming (buf ++ vs), fo⟩ := by
  induction vs with
  | nil => intro buf fo; simp [appendAll]
  | cons v vs ih =>
    intro buf fo
    simp [appendAll, append_impl, Option.bind, ih (buf ++ [v]) fo]

/-- Decoding a stream of good frames followed by a corrupt frame yields all
good values, then the salvaged prefix, and reports the corrupt frame's
index. -/
theorem readBlocks_good_corrupt {V : Type} (gs : List (List V)) (sv : List V)
    (rest : List (Frame V)) :
    ∀ n, readBlocks (gs.map Frame.good ++ Frame.corrupt sv :: rest) n =
      (gs.flatten ++ sv, some (n + gs.length, sv)) := by
  induction gs with
  | nil => intro n; simp [readBlocks]
  | cons g gs ih =>
    intro n
    simp [readBlocks, ih (n + 1)]
    omega

/-- Decoding a stream made only of good frames yields their concatenation and
no corruption report. -/
theorem readBlocks_good {V : Type} (gs : List (List V)) :
    ∀ n, readBlocks (gs.map Frame.good) n = (gs.flatten, none) := by
  induction gs with
  | nil => intro n; simp [readBlocks]
  | cons g gs ih => intro n; simp [readBlocks, ih (n + 1)]

/-! ### C1: append/drop/read round trip -/

/-- A fresh entry: one whose underlying file holds no records yet, in any of
the non-`Closed` states consistent with that (an `Unopened` handle over a
missing or empty file, an `Open` handle over an empty file, or a `Streaming`
handle whose compressor has not been written to). -/
def FreshState {V : Type} (magic kb : List Nat) (w : EntryWorld V) : Prop :=
  (w.entry = Entry.unopened kb ∧ w.file = none) ∨
  (∃ f, w.file = some f ∧ f.headerBytes = magic ++ kb ∧ f.frames = [] ∧
    (w.entry = Entry.unopened kb ∨ w.entry = Entry.opened ∨
      w.entry = Entry.streaming []))

/-- C1 (confirmed): appending `v1, …, vn` to a fresh file-cache entry in any
of its non-`Closed` states, then dropping the entry (which emits the `None`
sentinel and finishes the compressor), then reading from a freshly opened
entry for the same key, returns exactly `[v1, …, vn]` in append order with
the terminating sentinel excluded. -/
theorem c1_append_drop_read_roundtrip {V : Type} (magic kb : List Nat)
    (vs : List V) (w : EntryWorld V) (h : FreshState magic kb w) :
    ∃ w1 : EntryWorld V, appendAll magic w vs = some w1 ∧
      (read_impl magic ⟨Entry.unopened kb, (dropEntry w1).file⟩).map Prod.fst =
        some vs := by
  have hread_new : ∀ tail : List V,
      (read_impl magic
        ⟨Entry.unopened kb,
          some ⟨magic ++ kb, [Frame.good tail]⟩⟩).map Prod.fst = some tail := by
    intro tail
    have h1 : readBlocks ([Frame.good tail] : List (Frame V)) 0 =
        (tail, none) := by
      have := readBlocks_good (V := V) [tail] 0
      simpa using this
    simp [read_impl, checkHeader, h1]
  obtain ⟨e, fo⟩ := w
  rcases h with ⟨he, hf⟩ | ⟨f, hf, hhdr, hfr, he⟩
  · -- Unopened over a missing file
    simp only at he hf
    subst he hf
    cases vs with
    | nil =>
      refine ⟨_, rfl, ?_⟩
      simp [dropEntry, read_impl]
    | cons v vs =>
      refine ⟨⟨Entry.streaming (v :: vs), some ⟨magic ++ kb, []⟩⟩, ?_, ?_⟩
      · simp [appendAll, append_impl, Option.bind,
          appendAll_streaming magic vs [v]]
      · simpa [dropEntry] using hread_new (v :: vs)
  · simp only at he hf
    obtain ⟨hb, fr⟩ := f
    simp only at hhdr hfr
    subst hhdr hfr hf
    have hread_empty :
        (read_impl magic
          ⟨Entry.unopened kb,
            some (⟨magic ++ kb, []⟩ : CacheFile V)⟩).map Prod.fst =
          some ([] : List V) := by
      simp [read_impl, checkHeader, readBlocks]
    rcases he with he | he | he
    all_goals subst he
    · -- Unopened over an empty, well-formed file
      cases vs with
      | nil =>
        refine ⟨_, rfl, ?_⟩
        simpa [dropEntry] using hread_empty
      | cons v vs =>
        refine ⟨⟨Entry.streaming (v :: vs), some ⟨magic ++ kb, []⟩⟩, ?_, ?_⟩
        · simp [appendAll, append_impl, Option.bind,
            appendAll_streaming magic vs [v]]
        · simpa [dropEntry] using hread_new (v :: vs)
    · -- Open over an empty file
      cases vs with
      | nil =>
        refine ⟨_, rfl, ?_⟩
        simpa [dropEntry] using hread_empty
      | cons v vs =>
        refine ⟨⟨Entry.streaming (v :: vs), some ⟨magic ++ kb, []⟩⟩, ?_, ?_⟩
        · simp [appendAll, append_impl, Option.bind,
            appendAll_streaming magic vs [v]]
        · simpa [dropEntry] using hread_new (v :: vs)
    · -- Streaming with an empty compressor buffer
      refine ⟨⟨Entry.streaming vs, some ⟨magic ++ kb, []⟩⟩, ?_, ?_⟩
      · simpa using appendAll_streaming magic vs ([] : List V) _
      · simpa [dropEntry] using hread_new vs

/-- Witness for C1 at a concrete input: two values appended from a fresh
`Unopened` entry with no file present read back as exactly those values. -/
theorem c1_append_drop_read_roundtrip_witness :
    ∃ w1 : EntryWorld Nat,
      appendAll [9] ⟨Entry.unopened [7], none⟩ [1, 2] = some w1 ∧
        (read_impl [9] ⟨Entry.unopened [7], (dropEntry w1).file⟩).map Prod.fst =
          some [1, 2] :=
  c1_append_drop_read_roundtrip [9] [7] [1, 2] ⟨Entry.unopened [7], none⟩
    (Or.inl ⟨rfl, rfl⟩)

/-! ### C2: corrupt-tail recovery -/

/-- C2 (confirmed): on an entry file whose record stream decodes successfully
through the records of the good frames and the salvaged prefix `sv` of the
failing frame and then fails, `read` returns exactly those records in file
order; the file is truncated to the offset recorded at the start of the
failing frame (everything from that frame on is dropped); the entry
transitions to `Streaming` with the salvaged records re-emitted into the new
compressed stream; and a subsequent append extends that stream, so that after
drop the file continues cleanly from the truncation point. -/
theorem c2_corrupt_tail_recovery {V : Type} (magic kb : List Nat)
    (gs : List (List V)) (sv : List V) (rest : List (Frame V)) (v : V)
    (f : CacheFile V) (hhdr : f.headerBytes = magic ++ kb)
    (hfr : f.frames = gs.map Frame.good ++ Frame.corrupt sv :: rest) :
    read_impl magic ⟨Entry.unopened kb, some f⟩ =
      some (gs.flatten ++ sv,
        ⟨Entry.streaming sv, some ⟨magic ++ kb, gs.map Frame.good⟩⟩) ∧
    append_impl magic
        ⟨Entry.streaming sv, some ⟨magic ++ kb, gs.map Frame.good⟩⟩ v =
      some ⟨Entry.streaming (sv ++ [v]), some ⟨magic ++ kb, gs.map Frame.good⟩⟩ ∧
    dropEntry
        ⟨Entry.streaming (sv ++ [v]), some ⟨magic ++ kb, gs.map Frame.good⟩⟩ =
      ⟨Entry.closed,
        some ⟨magic ++ kb, gs.map Frame.good ++ [Frame.good (sv ++ [v])]⟩⟩ := by
  obtain ⟨hb, fr⟩ := f
  simp only at hhdr hfr
  subst hhdr hfr
  refine ⟨?_, ?_, ?_⟩
  · have hrb := readBlocks_good_corrupt gs sv rest 0
    have htake :
        ((gs.map Frame.good ++ Frame.corrupt sv :: rest).take
          (0 + gs.length) : List (Frame V)) = gs.map Frame.good := by
      rw [Nat.zero_add]
      have : gs.length = (gs.map Frame.good).length := by simp
      rw [this, List.take_left]
    simp [read_impl, checkHeader, hrb, htake]
  · simp [append_impl]
  · simp [dropEntry]

/-- Witness for C2 at a concrete input: a file holding two complete frames,
then a frame salvaging one record before failing. -/
theorem c2_corrupt_tail_recovery_witness :
    read_impl [9] ⟨Entry.unopened [7], some ⟨[9, 7],
        [Frame.good [1], Frame.good [2], Frame.corrupt [3]]⟩⟩ =
      some ([1, 2, 3],
        ⟨Entry.streaming [3], some ⟨[9, 7], [Frame.good [1], Frame.good [2]]⟩⟩) ∧
    append_impl [9]
        ⟨Entry.streaming [3], some ⟨[9, 7], [Frame.good [1], Frame.good [2]]⟩⟩ 4 =
      some ⟨Entry.streaming [3, 4], some ⟨[9, 7], [Frame.good [1], Frame.good [2]]⟩⟩ ∧
    dropEntry
        ⟨Entry.streaming [3, 4], some ⟨[9, 7], [Frame.good [1], Frame.good [2]]⟩⟩ =
      ⟨Entry.closed, some ⟨[9, 7],
        [Frame.good [1], Frame.good [2], Frame.good [3, 4]]⟩⟩ := by
  have h := c2_corrupt_tail_recovery (V := Nat) [9] [7] [[1], [2]] [3] [] 4
    ⟨[9, 7], [Frame.good [1], Frame.good [2], Frame.corrupt [3]]⟩ rfl rfl
  simpa using h

/-! ### C9: header tamper -/

/-- C9 counterexample: on a concrete entry file whose header bytes differ
from the expected magic-plus-key bytes, `read` does NOT return an error:
the open failure is logged and `read` returns `Ok` of the empty list, the
entry staying `Unopened`.  The claim that the next read returns an error is
therefore false at this input. -/
theorem c9_header_tamper_counterexample :
    readResult [9] ⟨Entry.unopened [7], some ⟨[8, 7], [Frame.good [1]]⟩⟩ =
      some (Except.ok [], ⟨Entry.unopened [7], some ⟨[8, 7], [Frame.good [1]]⟩⟩) := by
  rfl

/-- C9 as amended (confirmed): for every entry file whose header bytes differ
from the expected magic-plus-key bytes for the entry's key, the next read
returns `Ok` of the empty record list — a cache miss surfaced as a logged
warning rather than an error — the entry stays `Unopened`, the file is left
unchanged, and no records from the compressed stream are decoded. -/
theorem c9_header_tamper_amended {V : Type} (magic kb : List Nat)
    (f : CacheFile V) (h : f.headerBytes ≠ magic ++ kb) :
    readResult magic ⟨Entry.unopened kb, some f⟩ =
      some (Except.ok [], ⟨Entry.unopened kb, some f⟩) := by
  simp [readResult, read_impl, checkHeader, h]

/-- Witness for the amended C9 at a concrete tampered file. -/
theorem c9_header_tamper_amended_witness :
    readResult [9] ⟨Entry.unopened [7], some (⟨[8, 7], [Frame.good [1]]⟩ :
        CacheFile Nat)⟩ =
      some (Except.ok [], ⟨Entry.unopened [7], some ⟨[8, 7], [Frame.good [1]]⟩⟩) :=
  c9_header_tamper_amended [9] [7] ⟨[8, 7], [Frame.good [1]]⟩ (by decide)

/-! ## Cache store clean traversal (FileCache::clean, src/disson/cache/file.rs)

`clean` walks the cache directory with an explicit stack: each directory is
pushed once as Explore and, when popped, first pushes itself as Delete and
then scans its entries in listing order — regular files are probed (the first
five bytes are read, failing if the file is shorter, and the file is unlinked
when they equal `GLOBAL_MAGIC`) and subdirectories are pushed as Explore.  A
directory found with no entries at all is removed immediately during its
Explore pass.  Delete entries, popped after the directory's whole subtree has
been handled, re-read the directory and remove it if it is now empty.  Any
I/O error propagates out of `clean` via `?`, abandoning the rest of the
stack.

The LIFO stack makes the traversal equivalent to: scan this directory's
files, then recursively clean its subdirectories in reverse listing order
(stopping at the first error), then perform this directory's Delete pass.
The functions below implement exactly that restructuring over a model
filesystem tree; the Boolean in each result is the error flag. -/

mutual
/-- A model filesystem: named regular files with byte contents and named
directories. -/
inductive FsTree where
  | file (name : String) (bytes : List Nat)
  | dir (name : String) (children : FsList)
/-- A directory listing in the model filesystem. -/
inductive FsList where
  | nil
  | cons (hd : FsTree) (tl : FsList)
end

deriving instance DecidableEq for FsTree
deriving instance DecidableEq for FsList

/-- The five-byte global magic prefix `\0diss`. -/
def GLOBAL_MAGIC : List Nat := [0, 100, 105, 115, 115]

/-- The probe in the explore pass: the first five bytes equal the global
magic.  (A file shorter than five bytes fails the probe read instead.) -/
def isMagicFile (bytes : List Nat) : Bool := bytes.take 5 == GLOBAL_MAGIC

/-- The file scan of one directory's explore pass, in listing order: a file
shorter than five bytes makes the probe's `read_exact` fail, aborting `clean`
with the remaining entries untouched (`Except.error` carries the directory's
resulting entry list); a file carrying the magic is unlinked; everything else
is kept.  Subdirectories are only queued here, not entered. -/
def exploreFiles : FsList → Except FsList FsList
  | FsList.nil => Except.ok FsList.nil
  | FsList.cons x xs =>
    match x with
    | FsTree.file _ bs =>
      if bs.length < 5 then Except.error (FsList.cons x xs)
      else if isMagicFile bs then
        match exploreFiles xs with
        | Except.ok r => Except.ok r
        | Except.error r => Except.error r
      else
        match exploreFiles xs with
        | Except.ok r => Except.ok (FsList.cons x r)
        | Except.error r => Except.error (FsList.cons x r)
    | FsTree.dir _ _ =>
      match exploreFiles xs with
      | Except.ok r => Except.ok (FsList.cons x r)
      | Except.error r => Except.error (FsList.cons x r)

/-- Remove the magic-bearing files from a listing: the net effect of a
successful explore pass on the directory's own files. -/
def dropMagic : FsList → FsList
  | FsList.nil => FsList.nil
  | FsList.cons x xs =>
    match x with
    | FsTree.file _ bs =>
      if isMagicFile bs then dropMagic xs else FsList.cons x (dropMagic xs)
    | FsTree.dir _ _ => FsList.cons x (dropMagic xs)

/-- Assemble one directory's result from its explore pass (`ex`) and the
result `r` of cleaning its subdirectories.  A failed explore aborts with the
partially scanned listing; otherwise the magic files are gone (`dropMagic`)
and, when the subtree cleaning succeeded, the delete pass removes the
directory if it ended up empty. -/
def nodeStep (n : String) (ex : Except FsList FsList) (r : Bool × FsList) :
    Bool × Option FsTree :=
  match ex with
  | Except.error cs1 => (true, some (FsTree.dir n cs1))
  | Except.ok _ =>
    if r.1 then (true, some (FsTree.dir n (dropMagic r.2)))
    else
      match dropMagic r.2 with
      | FsList.nil => (false, none)
      | FsList.cons f0 fs0 => (false, some (FsTree.dir n (FsList.cons f0 fs0)))

/-- Fold one listing entry into the subdirectory-cleaning result.  If the
later-listed entries (processed first, the stack being LIFO) already failed,
this entry is left untouched; a file passes through (its deletion belongs to
the explore pass); a directory is replaced by its cleaning result `rx` or
dropped when it was removed. -/
def dirStep (x : FsTree) (rx : Bool × Option FsTree) (rxs : Bool × FsList) :
    Bool × FsList :=
  if rxs.1 then (true, FsList.cons x rxs.2)
  else
    match x with
    | FsTree.file n bs => (false, FsList.cons (FsTree.file n bs) rxs.2)
    | FsTree.dir _ _ =>
      match rx.2 with
      | some x1 => (rx.1, FsList.cons x1 rxs.2)
      | none => (rx.1, rxs.2)

mutual
/-- One directory's full treatment by `clean`.  An empty directory is removed
during its explore pass, after which its queued delete pass fails to read it
and `clean` aborts with an error.  Otherwise the files are scanned
(`exploreFiles`), the subdirectories are cleaned in reverse listing order
(`cleanDirs`), and finally the delete pass removes the directory if it ended
up empty.  The Boolean is the error flag; `none` means the directory itself
was removed.  (Regular files are never handed to this function by the
traversal; they are returned unchanged.) -/
def cleanNode : FsTree → Bool × Option FsTree
  | FsTree.file n bs => (false, some (FsTree.file n bs))
  | FsTree.dir _n FsList.nil => (true, none)
  | FsTree.dir n (FsList.cons c0 cs0) =>
    nodeStep n (exploreFiles (FsList.cons c0 cs0)) (cleanDirs (FsList.cons c0 cs0))
termination_by t => sizeOf t

/-- Clean the subdirectories of one listing, last-listed first (the stack is
LIFO); an error abandons the stack, leaving earlier-listed subdirectories
untouched.  (`dirStep` ignores the node result for file entries.) -/
def cleanDirs : FsList → Bool × FsList
  | FsList.nil => (false, FsList.nil)
  | FsList.cons x xs => dirStep x (cleanNode x) (cleanDirs xs)
termination_by l => sizeOf l
end

mutual
/-- Does the tree contain a directory with no entries (one that is already
empty when the explore pass visits it)? -/
def hasEmptyDir : FsTree → Bool
  | FsTree.file _ _ => false
  | FsTree.dir _ FsList.nil => true
  | FsTree.dir _ (FsList.cons x xs) => hasEmptyDirL (FsList.cons x xs)
/-- List form of `hasEmptyDir`. -/
def hasEmptyDirL : FsList → Bool
  | FsList.nil => false
  | FsList.cons x xs => hasEmptyDir x || hasEmptyDirL xs
end

/-! ### C10: an initially empty directory makes clean fail -/

mutual
/-- If a tree contains a directory that is empty when visited, cleaning it
reports an error. -/
theorem cleanNode_err_of_emptyDir :
    ∀ t : FsTree, hasEmptyDir t = true → (cleanNode t).1 = true
  | FsTree.file _ _, h => by simp [hasEmptyDir] at h
  | FsTree.dir n FsList.nil, _ => by simp [cleanNode]
  | FsTree.dir n (FsList.cons c0 cs0), h => by
    have hL : hasEmptyDirL (FsList.cons c0 cs0) = true := by
      simpa [hasEmptyDir] using h
    have hd := cleanDirs_err_of_emptyDir (FsList.cons c0 cs0) hL
    cases hex : exploreFiles (FsList.cons c0 cs0) with
    | error cs1 => simp [cleanNode, nodeStep, hex]
    | ok r => simp [cleanNode, nodeStep, hex, hd]
termination_by t => sizeOf t

/-- If some entry of a listing contains an empty directory, cleaning the
listing's subdirectories reports an error. -/
theorem cleanDirs_err_of_emptyDir :
    ∀ l : FsList, hasEmptyDirL l = true → (cleanDirs l).1 = true
  | FsList.nil, h => by simp [hasEmptyDirL] at h
  | FsList.cons x xs, h => by
    simp only [hasEmptyDirL, Bool.or_eq_true] at h
    rcases hcd : cleanDirs xs with ⟨b, ys⟩
    cases b with
    | true => simp [cleanDirs, dirStep, hcd]
    | false =>
      have hxs : hasEmptyDirL xs = false := by
        by_contra hc
        have hc2 := cleanDirs_err_of_emptyDir xs (by simpa using hc)
        rw [hcd] at hc2
        simp at hc2
      have hx : hasEmptyDir x = true := by
        rcases h with h | h
        · exact h
        · rw [h] at hxs; cases hxs
      cases x with
      | file n bs => simp [hasEmptyDir] at hx
      | dir n cs =>
        have hn := cleanNode_err_of_emptyDir (FsTree.dir n cs) hx
        rcases hcn : cleanNode (FsTree.dir n cs) with ⟨b2, o⟩
        rw [hcn] at hn
        simp only at hn
        subst hn
        cases o <;> simp [cleanDirs, dirStep, hcd, hcn]
termination_by l => sizeOf l
end

/-- C10 (confirmed): whenever the cache tree contains a directory that is
already empty when the explore pass visits it, `clean` returns an error
instead of succeeding; in particular an empty directory (including an empty
cache root itself) is removed during its explore pass and its queued delete
pass then fails on the now-missing directory, yielding `(error, removed)`. -/
theorem c10_clean_empty_dir_error :
    (∀ t : FsTree, hasEmptyDir t = true → (cleanNode t).1 = true) ∧
    (∀ n : String, cleanNode (FsTree.dir n FsList.nil) = (true, none)) :=
  ⟨cleanNode_err_of_emptyDir, fun _ => by simp [cleanNode]⟩

/-- Witness for C10: a root holding one well-formed cache file next to an
empty subdirectory makes `clean` fail. -/
theorem c10_clean_empty_dir_error_witness :
    (cleanNode (FsTree.dir "root"
      (FsList.cons (FsTree.file "ff" (GLOBAL_MAGIC ++ [1]))
        (FsList.cons (FsTree.dir "ab" FsList.nil) FsList.nil)))).1 = true :=
  c10_clean_empty_dir_error.1 _ (by decide)

/-! ### C7: clean safety -/

mutual
/-- Hypotheses under which the clean traversal is error-free: every regular
file is at least five bytes long (so the magic probe can be read) and no
directory is empty when visited. -/
def wfTree : FsTree → Bool
  | FsTree.file _ bs => decide (5 ≤ bs.length)
  | FsTree.dir _ FsList.nil => false
  | FsTree.dir _ (FsList.cons x xs) => wfList (FsList.cons x xs)
/-- List form of `wfTree`. -/
def wfList : FsList → Bool
  | FsList.nil => true
  | FsList.cons x xs => wfTree x && wfList xs
end

/-- Rebuild a directory from its cleaned children, dropping it when empty
(helper for `cleanSpecTree`). -/
def specDir (n : String) (l : FsList) : Option FsTree :=
  match l with
  | FsList.nil => none
  | FsList.cons f0 fs0 => some (FsTree.dir n (FsList.cons f0 fs0))

/-- Prepend a cleaned entry, dropping it when it was removed (helper for
`cleanSpecList`). -/
def specCons (rx : Option FsTree) (rxs : FsList) : FsList :=
  match rx with
  | none => rxs
  | some x1 => FsList.cons x1 rxs

mutual
/-- Modelled from the spec's words (P5, clean safety): delete exactly the
regular files whose first five bytes are the global magic, leave every other
file in place, clean subdirectories recursively, remove a directory that ends
up empty and preserve one that still has entries.  This is the claim-side
description that `cleanNode` is compared against. -/
def cleanSpecTree : FsTree → Option FsTree
  | FsTree.file n bs =>
    if isMagicFile bs then none else some (FsTree.file n bs)
  | FsTree.dir n cs => specDir n (cleanSpecList cs)
/-- List form of `cleanSpecTree`. -/
def cleanSpecList : FsList → FsList
  | FsList.nil => FsList.nil
  | FsList.cons x xs => specCons (cleanSpecTree x) (cleanSpecList xs)
end

/-- Under the file-length hypothesis the explore pass never fails. -/
theorem exploreFiles_isOk :
    ∀ l : FsList, wfList l = true → ∃ r, exploreFiles l = Except.ok r
  | FsList.nil, _ => ⟨FsList.nil, rfl⟩
  | FsList.cons x xs, h => by
    simp only [wfList, Bool.and_eq_true] at h
    obtain ⟨r, hr⟩ := exploreFiles_isOk xs h.2
    cases x with
    | file n bs =>
      have hlen : ¬ bs.length < 5 := by
        have h5 := h.1
        simp [wfTree] at h5
        omega
      by_cases hm : isMagicFile bs = true
      · exact ⟨r, by simp [exploreFiles, hlen, hm, hr]⟩
      · refine ⟨FsList.cons (FsTree.file n bs) r, ?_⟩
        simp only [Bool.not_eq_true] at hm
        simp [exploreFiles, hlen, hm, hr]
    | dir n cs => exact ⟨FsList.cons (FsTree.dir n cs) r, by simp [exploreFiles, hr]⟩

mutual
/-- On a well-formed directory the clean traversal succeeds and computes
exactly the spec-side description. -/
theorem cleanNode_wf : ∀ (n : String) (cs : FsList),
    wfTree (FsTree.dir n cs) = true →
    cleanNode (FsTree.dir n cs) = (false, cleanSpecTree (FsTree.dir n cs))
  | n, FsList.nil, h => by simp [wfTree] at h
  | n, FsList.cons c0 cs0, h => by
    have hw : wfList (FsList.cons c0 cs0) = true := by
      simpa [wfTree] using h
    obtain ⟨r, hr⟩ := exploreFiles_isOk (FsList.cons c0 cs0) hw
    obtain ⟨hd1, hd2⟩ := cleanDirs_wf (FsList.cons c0 cs0) hw
    rcases hcd : cleanDirs (FsList.cons c0 cs0) with ⟨b, ys⟩
    rw [hcd] at hd1 hd2
    simp only at hd1 hd2
    subst hd1
    simp only [cleanNode, nodeStep, hr, hcd, cleanSpecTree]
    rw [hd2]
    cases hsl : cleanSpecList (FsList.cons c0 cs0) <;> simp [specDir, hsl]
termination_by _n cs => sizeOf cs + 1

/-- On a well-formed listing, cleaning the subdirectories succeeds and, after
the explore pass's file deletions are accounted for, leaves exactly the
spec-side description of the listing. -/
theorem cleanDirs_wf : ∀ l : FsList, wfList l = true →
    (cleanDirs l).1 = false ∧ dropMagic (cleanDirs l).2 = cleanSpecList l
  | FsList.nil, _ => by simp [cleanDirs, dropMagic, cleanSpecList]
  | FsList.cons x xs, h => by
    simp only [wfList, Bool.and_eq_true] at h
    obtain ⟨hd1, hd2⟩ := cleanDirs_wf xs h.2
    rcases hcd : cleanDirs xs with ⟨b, ys⟩
    rw [hcd] at hd1 hd2
    simp only at hd1 hd2
    subst hd1
    cases x with
    | file n bs =>
      constructor
      · simp [cleanDirs, dirStep, hcd]
      · simp only [cleanDirs, dirStep, hcd]
        by_cases hm : isMagicFile bs = true <;>
          simp [dropMagic, hm, hd2, cleanSpecList, cleanSpecTree, specCons]
    | dir n cs =>
      have hx := cleanNode_wf n cs h.1
      constructor
      · simp [cleanDirs, dirStep, hcd, hx]
        cases hst : cleanSpecTree (FsTree.dir n cs) <;> simp
      · simp only [cleanDirs, dirStep, hcd, hx]
        cases hst : cleanSpecTree (FsTree.dir n cs) with
        | none =>
          simp [specCons, hd2, cleanSpecList, hst]
        | some x1 =>
          have hx1 : ∃ n1 l1, x1 = FsTree.dir n1 l1 := by
            rcases hsl : cleanSpecList cs with _ | ⟨f0, fs0⟩ <;>
              · simp only [cleanSpecTree, hsl, specDir] at hst
                first
                  | exact ⟨_, _, (Option.some_inj.mp hst).symm⟩
                  | cases hst
          obtain ⟨n1, l1, hx1⟩ := hx1
          subst hx1
          simp [dropMagic, hd2, cleanSpecList, hst, specCons]
termination_by l => sizeOf l
end

/-- A directory listing on which `clean` violates claim C7: the probe of the
two-byte file `a` fails `read_exact`, so `clean` aborts with an error before
unlinking the magic-bearing cache file `b`. -/
def exC7list : FsList :=
  FsList.cons (FsTree.file "a" [0, 0])
    (FsList.cons (FsTree.file "b" (GLOBAL_MAGIC ++ [1])) FsList.nil)

/-- C7 counterexample: on a tree holding a two-byte file next to a valid
cache file, `clean` returns an error and leaves the tree unchanged — the
cache file whose first five bytes equal the magic is NOT deleted, contrary to
the claim, whose described outcome (`cleanSpecTree`) removes it. -/
theorem c7_clean_safety_counterexample :
    cleanNode (FsTree.dir "r" exC7list) = (true, some (FsTree.dir "r" exC7list)) ∧
    cleanSpecTree (FsTree.dir "r" exC7list) =
      some (FsTree.dir "r" (FsList.cons (FsTree.file "a" [0, 0]) FsList.nil)) ∧
    (cleanNode (FsTree.dir "r" exC7list)).2 ≠
      cleanSpecTree (FsTree.dir "r" exC7list) := by
  have h1 : cleanNode (FsTree.dir "r" exC7list) =
      (true, some (FsTree.dir "r" exC7list)) := by
    simp [cleanNode, nodeStep, exC7list, exploreFiles]
  have h2 : cleanSpecTree (FsTree.dir "r" exC7list) =
      some (FsTree.dir "r" (FsList.cons (FsTree.file "a" [0, 0]) FsList.nil)) := by
    simp [cleanSpecTree, cleanSpecList, specCons, specDir, exC7list,
      isMagicFile, GLOBAL_MAGIC]
  refine ⟨h1, h2, ?_⟩
  rw [h1, h2]
  decide

/-- C7 as amended (confirmed): on a directory tree in which every regular
file is at least five bytes long and no directory is empty when visited,
`clean` succeeds, deletes exactly the regular files whose first five bytes
equal `\0diss`, leaves every other file in place, removes the directories
(including the root) that end up empty, and preserves directories that still
contain other entries — the outcome `cleanSpecTree` describes. -/
theorem c7_clean_safety_amended (n : String) (cs : FsList)
    (h : wfTree (FsTree.dir n cs) = true) :
    cleanNode (FsTree.dir n cs) = (false, cleanSpecTree (FsTree.dir n cs)) :=
  cleanNode_wf n cs h

/-- Witness for the amended C7: a root with a five-byte non-cache file, a
cache file, and a subdirectory holding only a cache file. -/
theorem c7_clean_safety_amended_witness :
    cleanNode (FsTree.dir "r"
      (FsList.cons (FsTree.file "notes" [1, 2, 3, 4, 5])
        (FsList.cons (FsTree.file "c" (GLOBAL_MAGIC ++ [9]))
          (FsList.cons
            (FsTree.dir "sub" (FsList.cons (FsTree.file "d" GLOBAL_MAGIC) FsList.nil))
            FsList.nil)))) =
      (false, cleanSpecTree (FsTree.dir "r"
        (FsList.cons (FsTree.file "notes" [1, 2, 3, 4, 5])
          (FsList.cons (FsTree.file "c" (GLOBAL_MAGIC ++ [9]))
            (FsList.cons
              (FsTree.dir "sub" (FsList.cons (FsTree.file "d" GLOBAL_MAGIC) FsList.nil))
              FsList.nil))))) :=
  c7_clean_safety_amended "r" _ (by decide)

/-! ## Tile renderer (src/disson/tile_renderer.rs)

`TileRenderer::run` decomposes a `W×H` output into tiles of at most `TW×TH`
and sorts them by distance from the output center.  The generation loop is
`(0..tiles_x).flat_map(|r| (0..tiles_y).map(move |c| …))` with
`pos = (c·TW, r·TH)` — note that the outer variable `r` ranges over
`tiles_x` (the horizontal tile count) yet scales `TH`, and the inner `c`
ranges over `tiles_y` yet scales `TW`.  `size` is computed from
`max = size - pos`, an unsigned (u32) vector subtraction, as
`(TW.min(max.x), TH.min(max.y))`.  The sort key is the f64 norm of
`ctr - center`, again an unsigned subtraction; it is modelled here by the
exact squared length of the wrapped difference vector, which induces the same
strict ordering as comparing the f64 norms whenever the squared values are
not almost equal (for the inputs used below they differ by many orders of
magnitude).  Unsigned subtraction wraps modulo `2^32` (release builds; debug
builds panic on the same inputs). -/

/-- A `TileRange`: output position and size of one tile, in pixels. -/
structure TileRange where
  posX : Nat
  posY : Nat
  sizeX : Nat
  sizeY : Nat
  deriving DecidableEq, Repr

/-- Wrapping u32 subtraction `a - b` (for `a b < 2^32`). -/
def u32sub (a b : Nat) : Nat := (a + 2 ^ 32 - b) % 2 ^ 32

/-- The tile list generated by `TileRenderer::run` before sorting, exactly as
the source writes it: outer loop `r` over `tiles_x` used as the row (y)
index, inner loop `c` over `tiles_y` used as the column (x) index. -/
def tilesFor (TW TH W H : Nat) : List TileRange :=
  let tilesX := W / TW + min (W % TW) 1
  let tilesY := H / TH + min (H % TH) 1
  (List.range tilesX).flatMap fun r =>
    (List.range tilesY).map fun c =>
      let px := c * TW
      let py := r * TH
      { posX := px, posY := py
        sizeX := min TW (u32sub W px), sizeY := min TH (u32sub H py) }

/-- Modelled from the spec's words: `tiles_x = ceil(W/TW)` columns and
`tiles_y = ceil(H/TH)` rows, tile `(c, r)` at `pos = (c·TW, r·TH)` with
`size = (min(TW, W - pos.x), min(TH, H - pos.y))`. -/
def specTilesFor (TW TH W H : Nat) : List TileRange :=
  let tilesX := W / TW + min (W % TW) 1
  let tilesY := H / TH + min (H % TH) 1
  (List.range tilesY).flatMap fun r =>
    (List.range tilesX).map fun c =>
      let px := c * TW
      let py := r * TH
      { posX := px, posY := py
        sizeX := min TW (W - px), sizeY := min TH (H - py) }

/-- Does tile `t` cover the output cell `(x, y)`? -/
def covers (t : TileRange) (x y : Nat) : Bool :=
  t.posX ≤ x && x < t.posX + t.sizeX && t.posY ≤ y && y < t.posY + t.sizeY

/-- How many tiles of the list cover the cell `(x, y)`?  A partition of the
output requires this to be 1 for every cell of `[0,W)×[0,H)`. -/
def coverCount (ts : List TileRange) (x y : Nat) : Nat :=
  ts.countP fun t => covers t x y

/-- C3 fails on the code (code bug): for the non-square output `(W, H) =
(128, 256)` with 128×128 tiles the code generates the tiles
`pos=(0,0) size=(128,128)` and `pos=(128,0) size=(0,128)` — the loop indices
are transposed — so the cell `(0, 128)` is covered by no tile at all, whereas
the claimed decomposition covers every cell exactly once. -/
theorem c3_tile_decomposition_bug :
    tilesFor 128 128 128 256 =
      [{ posX := 0, posY := 0, sizeX := 128, sizeY := 128 },
       { posX := 128, posY := 0, sizeX := 0, sizeY := 128 }] ∧
    coverCount (tilesFor 128 128 128 256) 0 128 = 0 ∧
    specTilesFor 128 128 128 256 =
      [{ posX := 0, posY := 0, sizeX := 128, sizeY := 128 },
       { posX := 0, posY := 128, sizeX := 128, sizeY := 128 }] ∧
    coverCount (specTilesFor 128 128 128 256) 0 128 = 1 := by
  refine ⟨by decide, by decide, by decide, by decide⟩

/-- The center of a tile as the sort comparator computes it:
`pos + size / 2` in u32 arithmetic. -/
def tileCenter (t : TileRange) : Nat × Nat :=
  (t.posX + t.sizeX / 2, t.posY + t.sizeY / 2)

/-- The squared length of the wrapped difference `ctr - center` — the exact
counterpart of the f64 norm the comparator takes of the u32 subtraction
result.  `ctr = (W/2, H/2)` in integer division. -/
def codeDistSq (W H : Nat) (t : TileRange) : Nat :=
  (u32sub (W / 2) (tileCenter t).1) ^ 2 + (u32sub (H / 2) (tileCenter t).2) ^ 2

/-- The squared Euclidean distance from the output center to the tile center
the claim speaks of, in exact signed arithmetic. -/
def trueDistSq (W H : Nat) (t : TileRange) : Int :=
  ((W / 2 : Nat) - ((tileCenter t).1 : Int)) ^ 2 +
    ((H / 2 : Nat) - ((tileCenter t).2 : Int)) ^ 2

/-- C4 fails on the code (code bug): for a 384×384 output with 128×128 tiles,
the corner tile at `(0,0)` (true center distance `√32768 ≈ 181`) sorts
strictly before the tile at `pos=(256,128)` (true center distance
`√20480 ≈ 143`), because `ctr - center` is an unsigned subtraction that wraps
to about `2^32` for every tile whose center lies right of or below the output
center (and panics in debug builds). The claimed ascending-true-distance
order places them the other way around. -/
theorem c4_tile_ordering_bug :
    ({ posX := 0, posY := 0, sizeX := 128, sizeY := 128 } : TileRange) ∈
      tilesFor 128 128 384 384 ∧
    ({ posX := 256, posY := 128, sizeX := 128, sizeY := 128 } : TileRange) ∈
      tilesFor 128 128 384 384 ∧
    codeDistSq 384 384 { posX := 0, posY := 0, sizeX := 128, sizeY := 128 } <
      codeDistSq 384 384 { posX := 256, posY := 128, sizeX := 128, sizeY := 128 } ∧
    trueDistSq 384 384 { posX := 256, posY := 128, sizeX := 128, sizeY := 128 } <
      trueDistSq 384 384 { posX := 0, posY := 0, sizeX := 128, sizeY := 128 } := by
  refine ⟨by decide, by decide, by decide, by decide⟩

/-! ## Cancelable runner (src/disson/disson/mod.rs, src/disson/error.rs)

`run_cancelable` drives the user future against the interrupt listener in a
`select!`.  The enclosing block installs a `defer` guard that stores `true`
into the shared cancellation flag, and the guard is dropped — running the
store — on every exit path of the block, before `block_on` returns.  The
interrupt arm propagates a listener failure with `?` (hence `Failed`), prints
an acknowledgement, and yields `Err(Cancelled)`; the other arm yields the
user future's result.  The final match maps `Ok(v)` to `Ok(Some(v))` and
`Err(e)` through `CancelError::into_result`, which collapses `Cancelled` to
`Ok(())` (hence `Ok(None)`) and unwraps `Failed`. -/

/-- `CancelError` from `src/disson/error.rs`: cancellation is distinct from
failure. -/
inductive CancelError (E : Type) where
  | Cancelled
  | Failed (e : E)

/-- `CancelError::into_result`: `Cancelled` is not an error. -/
def CancelError.into_result {E : Type} : CancelError E → Except E Unit
  | CancelError.Cancelled => Except.ok ()
  | CancelError.Failed e => Except.error e

/-- Which side of the `select!` race finishes first, and with what: the
interrupt listener (whose own `Result` is propagated), or the user future
with its `CancelResult`. -/
inductive RaceOutcome (E T : Type) where
  | interrupt (r : Except E Unit)
  | completed (r : Except (CancelError E) T)

/-- The value of the `select!` expression for each race outcome: a won race
by a successful interrupt acknowledges and yields `Err(Cancelled)`; a failed
interrupt listener propagates via `?` as `Failed`; a completed user future
yields its own result. -/
def raceResult {E T : Type} : RaceOutcome E T → Except (CancelError E) T
  | RaceOutcome.interrupt (Except.ok _) => Except.error CancelError.Cancelled
  | RaceOutcome.interrupt (Except.error e) => Except.error (CancelError.Failed e)
  | RaceOutcome.completed r => r

/-- The observable outcome of `run_cancelable`: its return value and whether
the shared cancellation flag has been set when the scope is left. -/
structure RunOutcome (E T : Type) where
  result : Except E (Option T)
  flagSet : Bool

/-- `run_cancelable`: the `defer` guard sets the flag on every exit path;
the race result is collapsed through `CancelError::into_result`. -/
def run_cancelable {E T : Type} (o : RaceOutcome E T) : RunOutcome E T :=
  { result :=
      match raceResult o with
      | Except.ok v => Except.ok (some v)
      | Except.error e => e.into_result.map fun _ => (none : Option T)
    flagSet := true }

/-- C5 (confirmed): if the interrupt wins the race the runner returns
`Ok(None)`; a unit of work completing with `Cancelled` gives `Ok(None)`, with
`Failed(e)` gives `Err(e)`, with `Ok(v)` gives `Ok(Some(v))`; and the
cancellation flag is set on every exit path before the scope is left. -/
theorem c5_run_cancelable_outcomes (E T : Type) :
    (run_cancelable (RaceOutcome.interrupt (Except.ok ()) :
        RaceOutcome E T)).result = Except.ok none ∧
    (∀ v : T, (run_cancelable (RaceOutcome.completed (Except.ok v) :
        RaceOutcome E T)).result = Except.ok (some v)) ∧
    (run_cancelable (RaceOutcome.completed (Except.error CancelError.Cancelled) :
        RaceOutcome E T)).result = Except.ok none ∧
    (∀ e : E, (run_cancelable (RaceOutcome.completed
        (Except.error (CancelError.Failed e)) : RaceOutcome E T)).result =
        Except.error e) ∧
    (∀ o : RaceOutcome E T, (run_cancelable o).flagSet = true) :=
  ⟨rfl, fun _ => rfl, rfl, fun _ => rfl, fun _ => rfl⟩

/-! ## Size override (src/disson/cli.rs, src/disson/config.rs)

`FromStr for SizeOverride` tries three anchored regexes in order:
`^(\d+)([wh])$`, `^(\d+(?:\.\d+))%$` and `^(\d+)x(\d+)$`, all
case-insensitive.  Note the percent pattern: the fractional group
`(?:\.\d+)` is not optional, so the digits must be followed by a decimal
point and more digits before the `%`.  The matchers below implement these
three patterns over a character list (greedy digit runs; the patterns are
anchored and the tail literals cannot match a digit, so maximal munch is
equivalent to the regex semantics).  `GenerateConfig::read` then applies a
`Percent(p)` override by multiplying each configured dimension by `p`
directly — not by `p/100` — rounding, and checking `is_normal`. -/

/-- Split off the longest leading run of ASCII digits. -/
def digitsPrefix : List Char → List Char × List Char
  | [] => ([], [])
  | c :: cs =>
    if c.isDigit then
      let r := digitsPrefix cs
      (c :: r.1, r.2)
    else ([], c :: cs)

/-- Decimal value of a digit run (the `str::parse` of a captured group). -/
def digitsToNat (ds : List Char) : Nat :=
  ds.foldl (fun a c => a * 10 + (c.toNat - 48)) 0

/-- Match `^(\d+)([wh])$`, case-insensitively; returns the digits and the
lowercased selector. -/
def matchWidthHeight (s : List Char) : Option (List Char × Char) :=
  match digitsPrefix s with
  | ([], _) => none
  | (ds, rest) =>
    match rest with
    | [c] =>
      if c = 'w' ∨ c = 'W' then some (ds, 'w')
      else if c = 'h' ∨ c = 'H' then some (ds, 'h')
      else none
    | _ => none

/-- Match `^(\d+(?:\.\d+))%$`: digits, a mandatory decimal point, more
digits, then the percent sign; returns integer and fractional digit runs. -/
def matchPercent (s : List Char) : Option (List Char × List Char) :=
  match digitsPrefix s with
  | ([], _) => none
  | (ds, rest) =>
    match rest with
    | '.' :: rest2 =>
      match digitsPrefix rest2 with
      | ([], _) => none
      | (fs, rest3) => if rest3 = ['%'] then some (ds, fs) else none
    | _ => none

/-- Match `^(\d+)x(\d+)$`, case-insensitively. -/
def matchExact (s : List Char) : Option (List Char × List Char) :=
  match digitsPrefix s with
  | ([], _) => none
  | (ds, rest) =>
    match rest with
    | c :: rest2 =>
      if c = 'x' ∨ c = 'X' then
        match digitsPrefix rest2 with
        | ([], _) => none
        | (hs, rest3) => if rest3 = [] then some (ds, hs) else none
      else none
    | [] => none

/-- The `--size` override variants. -/
inductive SizeOverride where
  | Width (n : Nat)
  | Height (n : Nat)
  | Exact (w h : Nat)
  | Percent (p : ℚ)
  deriving DecidableEq, Repr

/-- `FromStr for SizeOverride`: the three regexes are tried in order and a
string matching none of them is rejected with the format hint.  The parsed
`f64` of the percent capture is represented exactly as a rational. -/
def sizeOverrideFromStr (s : List Char) : Except String SizeOverride :=
  match matchWidthHeight s with
  | some (ds, c) =>
    Except.ok (if c = 'w' then SizeOverride.Width (digitsToNat ds)
               else SizeOverride.Height (digitsToNat ds))
  | none =>
    match matchPercent s with
    | some (ds, fs) =>
      Except.ok (SizeOverride.Percent
        ((digitsToNat ds : ℚ) + (digitsToNat fs : ℚ) / (10 : ℚ) ^ fs.length))
    | none =>
      match matchExact s with
      | some (ds, hs) =>
        Except.ok (SizeOverride.Exact (digitsToNat ds) (digitsToNat hs))
      | none => Except.error "valid formats are <n>w, <n>h, <x>%, or <w>x<h>"

/-- The `SizeOverride::Percent` branch of `GenerateConfig::read`: reject
`p < 1e-7`, multiply each configured dimension by `p` itself, round
(half away from zero; the values here are nonnegative, matching `round` on
rationals), require the results normal (in range: nonzero), and truncate to
`u32`. -/
def applyPercent (p : ℚ) (width height : Nat) : Except String (Nat × Nat) :=
  if p < 1 / 10 ^ 7 then
    Except.error "invalid percentage for map size override, must be non-negative"
  else
    let w := round ((width : ℚ) * p)
    let h := round ((height : ℚ) * p)
    if w = 0 ∨ h = 0 then
      Except.error "couldn't calculate new map size for override"
    else Except.ok (w.toNat, h.toNat)

/-- C6 fails on the code (code bug): the override string `"50%"` does not
parse — the percent regex demands a fractional part, so only forms like
`"50.0%"` match — and even the percentage value 50 applied to a 1000×1000
configuration would yield 50000×50000, because the code multiplies by the
parsed number directly instead of by `n/100`.  The claimed effective
configuration 500×500 is produced on neither path. -/
theorem c6_size_override_percent_bug :
    sizeOverrideFromStr "50%".data =
      Except.error "valid formats are <n>w, <n>h, <x>%, or <w>x<h>" ∧
    sizeOverrideFromStr "50.0%".data = Except.ok (SizeOverride.Percent 50) ∧
    applyPercent 50 1000 1000 = Except.ok (50000, 50000) := by
  refine ⟨rfl, ?_, ?_⟩
  · show Except.ok (SizeOverride.Percent ((50 : ℚ) + (0 : ℚ) / (10 : ℚ) ^ 1)) = _
    norm_num
  · unfold applyPercent
    rw [if_neg (by norm_num : ¬ ((50 : ℚ) < 1 / 10 ^ 7))]
    norm_num [round_eq]
    rfl

/-! ## Map compute driver input grid (src/disson/disson/map.rs)

`compute` materializes the input pitch coordinates as
`(0..size.x).flat_map(|r| (0..size.y).map(move |c| view * Point2::from(
Vector2::new(c, r).cast::<f64>().component_div(&denom))))` with
`denom = (size - (1,1)).cast::<f64>() = (W-1, H-1)` and `view` the identity
transform (its construction is a TODO in the source).  The outer variable `r`
ranges over `0..W` and the inner `c` over `0..H`, and the produced point is
`(c/(W-1), r/(H-1))` — so the element at flat index `r·H + c` carries `c`
(which runs to `H`) divided by `W-1`.  The grids below model the coordinates
exactly over the rationals, stopping before the final injective per-axis map
`f ↦ base_hz · 2^f`, which cannot mask a coordinate difference. -/

/-- The coordinate grid the code builds (identity view), in generation
order. -/
def codeCoords (W H : Nat) : List (ℚ × ℚ) :=
  (List.range W).flatMap fun r =>
    (List.range H).map fun c =>
      ((c : ℚ) / ((W : ℚ) - 1), (r : ℚ) / ((H : ℚ) - 1))

/-- Modelled from the spec's words: the point for `(x, y) ∈ [0,W)×[0,H)` is
`(x/(W-1), y/(H-1))` and sits at row-major index `y·W + x` — the layout
`Tile::row_mut` consumes with input stride `W`. -/
def specCoords (W H : Nat) : List (ℚ × ℚ) :=
  (List.range H).flatMap fun y =>
    (List.range W).map fun x =>
      ((x : ℚ) / ((W : ℚ) - 1), (y : ℚ) / ((H : ℚ) - 1))

/-- C8 fails on the code (code bug): for the non-square size `(W, H) =
(2, 3)` both grids have the claimed length `W·H = 6`, but the code stores at
flat index 2 the point with normalized coordinates `(2, 0)` — an x-value of
`2/(W-1) = 2`, outside the unit square — where the claim (and the renderer's
stride-`W` consumer `Tile::row_mut`) expects the point for `(x, y) = (0, 1)`,
namely `(0, 1/2)`.  The loop indices are transposed and the flat stride is
`H` instead of `W`. -/
theorem c8_input_grid_bug :
    (codeCoords 2 3).length = 6 ∧
    (specCoords 2 3).length = 6 ∧
    (codeCoords 2 3).get? 2 = some (2, 0) ∧
    (specCoords 2 3).get? 2 = some (0, 1 / 2) ∧
    codeCoords 2 3 ≠ specCoords 2 3 := by
  have hc : codeCoords 2 3 =
      [(0, 0), (1, 0), (2, 0), (0, 1 / 2), (1, 1 / 2), (2, 1 / 2)] := by
    norm_num [codeCoords, List.range_succ]
  have hs : specCoords 2 3 =
      [(0, 0), (1, 0), (0, 1 / 2), (1, 1 / 2), (0, 1), (1, 1)] := by
    norm_num [specCoords, List.range_succ]
  refine ⟨by rw [hc]; rfl, by rw [hs]; rfl, by rw [hc]; rfl, by rw [hs]; rfl, ?_⟩
  rw [hc, hs]
  norm_num

end Disson
